import Mathlib

/-!
Shallow embedding of `foreman_domain.py`, an Ansible module that reconciles one
Foreman "domain" record against a remote Foreman server.

The remote system is modelled as a `Remote` value holding the domain records and
the catalogs of organizations, locations and smart proxies.  Every client call
the module issues is recorded in a trace (`List Call`); `module.fail_json` is
modelled as `Except.error` carrying the message, and a normal exit as
`Except.ok (changed, domain)`.

Functions `domains_equal`, `get_resources` and `ensure` are translated directly
from the source.  `organizations_equal`, `locations_equal`,
`get_organization_ids` and `get_location_ids` live in the shared
`ansible.module_utils.foreman_utils` (not part of this repository's source) and
are modelled from the spec, as are the remote server's reactions to
create/update/delete calls.
-/

namespace ForemanDomain

/-- A remote resource (organization, location or smart proxy): a name and its
remote numeric id. -/
structure FRes where
  name : String
  id : Nat
deriving DecidableEq, Repr

/-- A remote domain record as returned by a full `get_domain` fetch. -/
structure RemoteDomain where
  id : Nat
  name : String
  fullname : Option String
  dns_id : Option Nat
  organization_ids : List Nat
  location_ids : List Nat
deriving DecidableEq, Repr

/-- The `data` dictionary assembled by `ensure`.  `name` and `fullname` keys are
always present (`fullname`'s value may be `None`); the other three keys are
present only when the corresponding parameter was given, modelled by `Option`. -/
structure DomainData where
  name : String
  fullname : Option String
  organization_ids : Option (List Nat)
  location_ids : Option (List Nat)
  dns_id : Option Nat
deriving DecidableEq, Repr

/-- The module parameters relevant to `ensure` (connection parameters are
consumed by the client initialisation and play no role in the logic). -/
structure Params where
  name : String
  fullname : Option String
  dns_proxy : Option String
  state : String
  organizations : Option (List String)
  locations : Option (List String)
deriving DecidableEq, Repr

/-- The remote Foreman system: its domain records, the three reference
catalogs, and the next fresh id for created records. -/
structure Remote where
  domains : List RemoteDomain
  organizations : List FRes
  locations : List FRes
  smart_proxies : List FRes
  nextId : Nat
deriving DecidableEq, Repr

/-- One remote API call issued by the module. -/
inductive Call where
  | searchDomain (name : String)
  | getDomain (id : Nat)
  | searchResource (resource_type : String) (spec : String)
  | createDomain (data : DomainData)
  | updateDomain (id : Nat) (data : DomainData)
  | deleteDomain (id : Nat)
deriving DecidableEq, Repr

/-- Python truthiness of an optional string (`None` and `''` are falsy). -/
def strTruthy : Option String → Bool
  | none => false
  | some s => !(s == "")

/-- Python truthiness of an optional list (`None` and `[]` are falsy). -/
def listTruthy {α : Type} : Option (List α) → Bool
  | none => false
  | some [] => false
  | some (_ :: _) => true

/-- A Python dictionary value, as far as the compared keys need. -/
inductive Value where
  | vnone
  | vstr (s : String)
  | vnat (n : Nat)
  | vids (l : List Nat)
deriving DecidableEq, Repr

def optStrVal : Option String → Value
  | none => Value.vnone
  | some s => Value.vstr s

def optNatVal : Option Nat → Value
  | none => Value.vnone
  | some n => Value.vnat n

/-- `data.get(key, None)` on the assembled dictionary. -/
def data_get (data : DomainData) (key : String) : Value :=
  if key = "name" then Value.vstr data.name
  else if key = "fullname" then optStrVal data.fullname
  else if key = "organization_ids" then
    match data.organization_ids with
    | none => Value.vnone
    | some l => Value.vids l
  else if key = "location_ids" then
    match data.location_ids with
    | none => Value.vnone
    | some l => Value.vids l
  else if key = "dns_id" then optNatVal data.dns_id
  else Value.vnone

/-- `domain.get(key, None)` on a full remote domain record. -/
def domain_get (domain : RemoteDomain) (key : String) : Value :=
  if key = "id" then Value.vnat domain.id
  else if key = "name" then Value.vstr domain.name
  else if key = "fullname" then optStrVal domain.fullname
  else if key = "dns_id" then optNatVal domain.dns_id
  else if key = "organization_ids" then Value.vids domain.organization_ids
  else if key = "location_ids" then Value.vids domain.location_ids
  else Value.vnone

/-- Set equality of two id lists, order and multiplicity irrelevant. -/
def sameIdSet (a b : List Nat) : Bool :=
  a.all (fun x => b.contains x) && b.all (fun x => a.contains x)

/-- Modelled from the spec: `organizations_equal` comes from the shared module
utils (`ansible.module_utils.foreman_utils`), which is not part of this
repository's source.  Per the spec it compares the organization-id set of the
assembled data against the remote record by set equality, order irrelevant;
when the assembled data carries no `organization_ids` key (no organizations
parameter was given) the comparison is vacuously satisfied, as required by the
spec's idempotence property. -/
def organizations_equal (data : DomainData) (domain : RemoteDomain) : Bool :=
  match data.organization_ids with
  | none => true
  | some ids => sameIdSet ids domain.organization_ids

/-- Modelled from the spec: `locations_equal` comes from the shared module
utils, not part of this repository's source; it compares location-id sets the
same way `organizations_equal` compares organization-id sets. -/
def locations_equal (data : DomainData) (domain : RemoteDomain) : Bool :=
  match data.location_ids with
  | none => true
  | some ids => sameIdSet ids domain.location_ids

/-- `domains_equal` from the source: compares each key of `comparable_keys` via
`data.get(key, None) == domain.get(key, None)`, then the organization-id and
location-id sets.  `dns_id` is not among the compared keys. -/
def domains_equal (data : DomainData) (domain : RemoteDomain)
    (comparable_keys : List String) : Bool :=
  if !(comparable_keys.all fun key => data_get data key == domain_get domain key) then false
  else if !(organizations_equal data domain) then false
  else if !(locations_equal data domain) then false
  else true

/-- The catalog a `resource_type` string addresses on the remote system. -/
def catalogOf (r : Remote) (resource_type : String) : List FRes :=
  if resource_type = "organizations" then r.organizations
  else if resource_type = "locations" then r.locations
  else if resource_type = "smart_proxies" then r.smart_proxies
  else []

/-- `theforeman.search_resource(resource_type, data={'name': spec})`. -/
def search_resource (r : Remote) (resource_type : String) (spec : String) : Option FRes :=
  (catalogOf r resource_type).find? (fun res => res.name == spec)

/-- `theforeman.search_domain(data={'name': name})`. -/
def search_domain (r : Remote) (name : String) : Option RemoteDomain :=
  r.domains.find? (fun d => d.name == name)

/-- `theforeman.get_domain(id=id)`: full record fetch by id. -/
def get_domain (r : Remote) (id : Nat) : Option RemoteDomain :=
  r.domains.find? (fun d => d.id == id)

/-- The search-then-full-get sequence `ensure` performs before branching. -/
def fetch_domain (r : Remote) (name : String) : Option RemoteDomain :=
  match search_domain r name with
  | none => none
  | some d => get_domain r d.id

/-- The read-only calls the search-then-get sequence issues. -/
def fetch_calls (r : Remote) (name : String) : List Call :=
  match search_domain r name with
  | none => [Call.searchDomain name]
  | some d => [Call.searchDomain name, Call.getDomain d.id]

/-- `get_resources` from the source: one `search_resource` per spec, failing
via `module.fail_json` as soon as a spec resolves to zero matches. -/
def get_resources (r : Remote) (resource_type : String) (resource_specs : List String) :
    Except String (List FRes) × List Call :=
  match resource_specs with
  | [] => (Except.ok [], [])
  | item :: rest =>
    match search_resource r resource_type item with
    | none =>
      (Except.error ("Could not find resource type " ++ resource_type ++ " defined as " ++ item),
       [Call.searchResource resource_type item])
    | some res =>
      match get_resources r resource_type rest with
      | (Except.ok ress, cs) => (Except.ok (res :: ress), Call.searchResource resource_type item :: cs)
      | (Except.error m, cs) => (Except.error m, Call.searchResource resource_type item :: cs)

/-- Modelled from the spec: `get_organization_ids` comes from the shared module
utils, not part of this repository's source; per the spec it looks up each
referenced organization name on the remote system, failing when any name
resolves to zero matches, and returns the resolved numeric ids. -/
def get_organization_ids (r : Remote) (names : List String) :
    Except String (List Nat) × List Call :=
  match get_resources r "organizations" names with
  | (Except.ok ress, cs) => (Except.ok (ress.map FRes.id), cs)
  | (Except.error m, cs) => (Except.error m, cs)

/-- Modelled from the spec: `get_location_ids` comes from the shared module
utils, not part of this repository's source; it resolves location names the
same way `get_organization_ids` resolves organization names. -/
def get_location_ids (r : Remote) (names : List String) :
    Except String (List Nat) × List Call :=
  match get_resources r "locations" names with
  | (Except.ok ress, cs) => (Except.ok (ress.map FRes.id), cs)
  | (Except.error m, cs) => (Except.error m, cs)

/-- The `if organizations: data['organization_ids'] = ...` step of `ensure`. -/
def org_step (p : Params) (r : Remote) : Except String (Option (List Nat)) × List Call :=
  if listTruthy p.organizations then
    match get_organization_ids r (p.organizations.getD []) with
    | (Except.ok ids, cs) => (Except.ok (some ids), cs)
    | (Except.error m, cs) => (Except.error m, cs)
  else (Except.ok none, [])

/-- The `if locations: data['location_ids'] = ...` step of `ensure`. -/
def loc_step (p : Params) (r : Remote) : Except String (Option (List Nat)) × List Call :=
  if listTruthy p.locations then
    match get_location_ids r (p.locations.getD []) with
    | (Except.ok ids, cs) => (Except.ok (some ids), cs)
    | (Except.error m, cs) => (Except.error m, cs)
  else (Except.ok none, [])

/-- The `if dns_proxy: data['dns_id'] = get_resources(...)[0].get('id')` step. -/
def dns_step (p : Params) (r : Remote) : Except String (Option Nat) × List Call :=
  if strTruthy p.dns_proxy then
    match get_resources r "smart_proxies" [p.dns_proxy.getD ""] with
    | (Except.ok ress, cs) => (Except.ok (ress.head?.map FRes.id), cs)
    | (Except.error m, cs) => (Except.error m, cs)
  else (Except.ok none, [])

/-- Reference resolution and payload assembly, exactly in the source's order:
organizations, then locations, then `data['fullname'] = fullname`, then the
dns proxy.  A resolution failure is a hard stop. -/
def assemble (p : Params) (r : Remote) : Except String DomainData × List Call :=
  match org_step p r with
  | (Except.error m, cs) => (Except.error m, cs)
  | (Except.ok orgIds, cs1) =>
    match loc_step p r with
    | (Except.error m, cs) => (Except.error m, cs1 ++ cs)
    | (Except.ok locIds, cs2) =>
      match dns_step p r with
      | (Except.error m, cs) => (Except.error m, cs1 ++ (cs2 ++ cs))
      | (Except.ok dnsId, cs3) =>
        (Except.ok { name := p.name
                     fullname := p.fullname
                     organization_ids := orgIds
                     location_ids := locIds
                     dns_id := dnsId },
         cs1 ++ (cs2 ++ cs3))

/-- Modelled from the spec: the record the remote system creates and returns
for `create_domain(data)` — the assembled fields under a fresh id. -/
def create_result (r : Remote) (data : DomainData) : RemoteDomain :=
  { id := r.nextId
    name := data.name
    fullname := data.fullname
    dns_id := data.dns_id
    organization_ids := data.organization_ids.getD []
    location_ids := data.location_ids.getD [] }

/-- Modelled from the spec: the record the remote system stores and returns for
`update_domain(id, data)` — every key present in the payload overwrites the
stored field, absent keys leave the stored field unchanged. -/
def update_apply (d : RemoteDomain) (data : DomainData) : RemoteDomain :=
  { d with
    name := data.name
    fullname := data.fullname
    dns_id := (match data.dns_id with | some i => some i | none => d.dns_id)
    organization_ids := data.organization_ids.getD d.organization_ids
    location_ids := data.location_ids.getD d.location_ids }

/-- The local `comparable_keys = ['name', 'fullname']` of `ensure`. -/
def comparable_keys : List String := ["name", "fullname"]

/-- `ensure` from the source: fetch current state, resolve references and
assemble the payload, then take one of the four branches, issuing at most one
mutating call.  Returns the module outcome together with the trace of all
remote calls issued. -/
def ensure (p : Params) (r : Remote) :
    Except String (Bool × Option RemoteDomain) × List Call :=
  let domain := fetch_domain r p.name
  let fcalls := fetch_calls r p.name
  match assemble p r with
  | (Except.error m, acalls) => (Except.error m, fcalls ++ acalls)
  | (Except.ok data, acalls) =>
    let calls := fcalls ++ acalls
    match domain with
    | none =>
      if p.state = "present" then
        (Except.ok (true, some (create_result r data)), calls ++ [Call.createDomain data])
      else
        (Except.ok (false, none), calls)
    | some d =>
      if p.state = "absent" then
        (Except.ok (true, some d), calls ++ [Call.deleteDomain d.id])
      else if !(domains_equal data d comparable_keys) then
        (Except.ok (true, some (update_apply d data)), calls ++ [Call.updateDomain d.id data])
      else
        (Except.ok (false, some d), calls)

/-- Whether a call mutates remote state (create, update or delete). -/
def isMutating : Call → Bool
  | Call.createDomain _ => true
  | Call.updateDomain _ _ => true
  | Call.deleteDomain _ => true
  | _ => false

/-- Modelled from the spec: the remote system's state transition for each
client call (§6).  Read-only calls leave it unchanged. -/
def applyCall (r : Remote) (c : Call) : Remote :=
  match c with
  | Call.createDomain data =>
    { r with
      domains := r.domains ++ [create_result r data]
      nextId := r.nextId + 1 }
  | Call.updateDomain i data =>
    { r with domains := r.domains.map (fun d => if d.id = i then update_apply d data else d) }
  | Call.deleteDomain i =>
    { r with domains := r.domains.filter (fun d => !(d.id == i)) }
  | _ => r

/-- The remote system applying a whole trace of calls in order. -/
def applyCalls (r : Remote) (cs : List Call) : Remote := cs.foldl applyCall r

/-- Well-formedness of the remote system: domain ids and names are pairwise
distinct (the spec's at-most-one-domain-per-name invariant, plus opaque ids
being unique), and `nextId` is fresh. -/
def Remote.wf (r : Remote) : Prop :=
  r.domains.Pairwise (fun a b => a.id ≠ b.id ∧ a.name ≠ b.name) ∧
  ∀ d ∈ r.domains, d.id < r.nextId

/-- Some provided reference (an organization name, a location name, or the dns
proxy name) resolves to zero matches on the remote system. -/
def badRef (p : Params) (r : Remote) : Prop :=
  (listTruthy p.organizations = true ∧
    ∃ n ∈ p.organizations.getD [], search_resource r "organizations" n = none) ∨
  (listTruthy p.locations = true ∧
    ∃ n ∈ p.locations.getD [], search_resource r "locations" n = none) ∨
  (strTruthy p.dns_proxy = true ∧
    search_resource r "smart_proxies" (p.dns_proxy.getD "") = none)

theorem find?_of_unique {α : Type} (p : α → Bool) (l : List α) (d : α)
    (hd : d ∈ l) (hp : p d = true) (huniq : ∀ x ∈ l, p x = true → x = d) :
    l.find? p = some d := by
  have h1 : (l.find? p).isSome := List.find?_isSome.mpr ⟨d, hd, hp⟩
  match he : l.find? p with
  | some y =>
    have hy := List.find?_some he
    have hmem := List.mem_of_find?_eq_some he
    rw [huniq y hmem hy]
  | none => rw [he] at h1; simp at h1

theorem wf_distinct (r : Remote) (hwf : r.wf) (a b : RemoteDomain)
    (ha : a ∈ r.domains) (hb : b ∈ r.domains) (hne : a ≠ b) :
    a.id ≠ b.id ∧ a.name ≠ b.name := by
  have hsym : Symmetric (fun a b : RemoteDomain => a.id ≠ b.id ∧ a.name ≠ b.name) := by
    intro x y h
    exact ⟨h.1.symm, h.2.symm⟩
  exact List.Pairwise.forall hsym hwf.1 ha hb hne

theorem unique_by_id (r : Remote) (hwf : r.wf) (a b : RemoteDomain)
    (ha : a ∈ r.domains) (hb : b ∈ r.domains) (h : a.id = b.id) : a = b := by
  by_contra hne
  exact (wf_distinct r hwf a b ha hb hne).1 h

theorem unique_by_name (r : Remote) (hwf : r.wf) (a b : RemoteDomain)
    (ha : a ∈ r.domains) (hb : b ∈ r.domains) (h : a.name = b.name) : a = b := by
  by_contra hne
  exact (wf_distinct r hwf a b ha hb hne).2 h

theorem search_domain_found (r : Remote) (n : String) (d : RemoteDomain)
    (h : search_domain r n = some d) : d ∈ r.domains ∧ d.name = n := by
  refine ⟨List.mem_of_find?_eq_some h, ?_⟩
  have := List.find?_some h
  simpa using this

theorem search_domain_not_found (r : Remote) (n : String)
    (h : search_domain r n = none) : ∀ d ∈ r.domains, d.name ≠ n := by
  intro d hd
  have := List.find?_eq_none.mp h d hd
  simpa using this

theorem get_domain_of_mem (r : Remote) (hwf : r.wf) (d : RemoteDomain)
    (hd : d ∈ r.domains) : get_domain r d.id = some d := by
  unfold get_domain
  apply find?_of_unique _ _ d hd (by simp)
  intro x hx hpx
  exact unique_by_id r hwf x d hx hd (by simpa using hpx)

theorem fetch_eq_search (r : Remote) (hwf : r.wf) (n : String) :
    fetch_domain r n = search_domain r n := by
  unfold fetch_domain
  match hsd : search_domain r n with
  | none => rfl
  | some d => exact get_domain_of_mem r hwf d (search_domain_found r n d hsd).1

theorem fetch_calls_readonly (r : Remote) (n : String) :
    ∀ c ∈ fetch_calls r n, isMutating c = false := by
  unfold fetch_calls
  match search_domain r n with
  | none => intro c hc; simp at hc; rw [hc]; rfl
  | some d =>
    intro c hc
    simp at hc
    rcases hc with h | h <;> rw [h] <;> rfl

theorem get_resources_calls_readonly (r : Remote) (rt : String) (specs : List String) :
    ∀ c ∈ (get_resources r rt specs).2, isMutating c = false := by
  induction specs with
  | nil =>
    intro c hc
    have he : get_resources r rt [] = (Except.ok [], []) := rfl
    rw [he] at hc
    simp at hc
  | cons a rest ih =>
    intro c hc
    unfold get_resources at hc
    match hsr : search_resource r rt a with
    | none =>
      rw [hsr] at hc
      simp at hc
      rw [hc]; rfl
    | some res =>
      rw [hsr] at hc
      match hrec : get_resources r rt rest with
      | (Except.ok ress, cs) =>
        rw [hrec] at hc
        simp at hc
        rcases hc with h | h
        · rw [h]; rfl
        · have := ih c
          rw [hrec] at this
          exact this h
      | (Except.error m, cs) =>
        rw [hrec] at hc
        simp at hc
        rcases hc with h | h
        · rw [h]; rfl
        · have := ih c
          rw [hrec] at this
          exact this h

theorem org_step_calls_readonly (p : Params) (r : Remote) :
    ∀ c ∈ (org_step p r).2, isMutating c = false := by
  intro c hc
  unfold org_step at hc
  by_cases ht : listTruthy p.organizations
  · rw [if_pos ht] at hc
    unfold get_organization_ids at hc
    match hg : get_resources r "organizations" (p.organizations.getD []) with
    | (Except.ok ress, cs) =>
      rw [hg] at hc
      have := get_resources_calls_readonly r "organizations" (p.organizations.getD []) c
      rw [hg] at this
      exact this hc
    | (Except.error m, cs) =>
      rw [hg] at hc
      have := get_resources_calls_readonly r "organizations" (p.organizations.getD []) c
      rw [hg] at this
      exact this hc
  · rw [if_neg ht] at hc
    simp at hc

theorem loc_step_calls_readonly (p : Params) (r : Remote) :
    ∀ c ∈ (loc_step p r).2, isMutating c = false := by
  intro c hc
  unfold loc_step at hc
  by_cases ht : listTruthy p.locations
  · rw [if_pos ht] at hc
    unfold get_location_ids at hc
    match hg : get_resources r "locations" (p.locations.getD []) with
    | (Except.ok ress, cs) =>
      rw [hg] at hc
      have := get_resources_calls_readonly r "locations" (p.locations.getD []) c
      rw [hg] at this
      exact this hc
    | (Except.error m, cs) =>
      rw [hg] at hc
      have := get_resources_calls_readonly r "locations" (p.locations.getD []) c
      rw [hg] at this
      exact this hc
  · rw [if_neg ht] at hc
    simp at hc

theorem dns_step_calls_readonly (p : Params) (r : Remote) :
    ∀ c ∈ (dns_step p r).2, isMutating c = false := by
  intro c hc
  unfold dns_step at hc
  by_cases ht : strTruthy p.dns_proxy
  · rw [if_pos ht] at hc
    match hg : get_resources r "smart_proxies" [p.dns_proxy.getD ""] with
    | (Except.ok ress, cs) =>
      rw [hg] at hc
      have := get_resources_calls_readonly r "smart_proxies" [p.dns_proxy.getD ""] c
      rw [hg] at this
      exact this hc
    | (Except.error m, cs) =>
      rw [hg] at hc
      have := get_resources_calls_readonly r "smart_proxies" [p.dns_proxy.getD ""] c
      rw [hg] at this
      exact this hc
  · rw [if_neg ht] at hc
    simp at hc

theorem assemble_calls_readonly (p : Params) (r : Remote) :
    ∀ c ∈ (assemble p r).2, isMutating c = false := by
  intro c hc
  unfold assemble at hc
  match ho : org_step p r with
  | (Except.error m, cs) =>
    rw [ho] at hc
    have := org_step_calls_readonly p r c
    rw [ho] at this
    exact this hc
  | (Except.ok orgIds, cs1) =>
    rw [ho] at hc
    match hl : loc_step p r with
    | (Except.error m, cs) =>
      rw [hl] at hc
      simp at hc
      rcases hc with h | h
      · have := org_step_calls_readonly p r c
        rw [ho] at this
        exact this h
      · have := loc_step_calls_readonly p r c
        rw [hl] at this
        exact this h
    | (Except.ok locIds, cs2) =>
      rw [hl] at hc
      match hd : dns_step p r with
      | (Except.error m, cs) =>
        rw [hd] at hc
        simp at hc
        rcases hc with h | h | h
        · have := org_step_calls_readonly p r c
          rw [ho] at this
          exact this h
        · have := loc_step_calls_readonly p r c
          rw [hl] at this
          exact this h
        · have := dns_step_calls_readonly p r c
          rw [hd] at this
          exact this h
      | (Except.ok dnsId, cs3) =>
        rw [hd] at hc
        simp at hc
        rcases hc with h | h | h
        · have := org_step_calls_readonly p r c
          rw [ho] at this
          exact this h
        · have := loc_step_calls_readonly p r c
          rw [hl] at this
          exact this h
        · have := dns_step_calls_readonly p r c
          rw [hd] at this
          exact this h

theorem filter_mut_nil (l : List Call) (h : ∀ c ∈ l, isMutating c = false) :
    l.filter isMutating = [] := by
  rw [List.filter_eq_nil_iff]
  intro c hc
  rw [h c hc]
  simp

theorem applyCall_readonly (r : Remote) (c : Call) (h : isMutating c = false) :
    applyCall r c = r := by
  cases c <;> first
    | rfl
    | simp [isMutating] at h

theorem applyCalls_readonly (r : Remote) (l : List Call)
    (h : ∀ c ∈ l, isMutating c = false) : applyCalls r l = r := by
  induction l generalizing r with
  | nil => rfl
  | cons a rest ih =>
    unfold applyCalls at *
    simp only [List.foldl_cons]
    rw [applyCall_readonly r a (h a (by simp))]
    exact ih r (fun c hc => h c (by simp [hc]))

theorem applyCalls_append (r : Remote) (l1 l2 : List Call) :
    applyCalls r (l1 ++ l2) = applyCalls (applyCalls r l1) l2 := by
  unfold applyCalls
  rw [List.foldl_append]

theorem applyCall_organizations (r : Remote) (c : Call) :
    (applyCall r c).organizations = r.organizations := by cases c <;> rfl

theorem applyCall_locations (r : Remote) (c : Call) :
    (applyCall r c).locations = r.locations := by cases c <;> rfl

theorem applyCall_smart_proxies (r : Remote) (c : Call) :
    (applyCall r c).smart_proxies = r.smart_proxies := by cases c <;> rfl

theorem get_resources_congr (r r' : Remote) (rt : String) (specs : List String)
    (h : catalogOf r rt = catalogOf r' rt) :
    get_resources r rt specs = get_resources r' rt specs := by
  induction specs with
  | nil => rfl
  | cons a rest ih =>
    unfold get_resources
    have hs : search_resource r rt a = search_resource r' rt a := by
      unfold search_resource
      rw [h]
    rw [hs, ih]

theorem assemble_congr (p : Params) (r r' : Remote)
    (ho : r.organizations = r'.organizations)
    (hl : r.locations = r'.locations)
    (hs : r.smart_proxies = r'.smart_proxies) :
    assemble p r = assemble p r' := by
  have hc : ∀ rt, catalogOf r rt = catalogOf r' rt := by
    intro rt
    unfold catalogOf
    split_ifs <;> simp [ho, hl, hs]
  unfold assemble org_step loc_step dns_step get_organization_ids get_location_ids
  rw [get_resources_congr r r' "organizations" (p.organizations.getD []) (hc _),
      get_resources_congr r r' "locations" (p.locations.getD []) (hc _),
      get_resources_congr r r' "smart_proxies" [p.dns_proxy.getD ""] (hc _)]

theorem assemble_applyCall (p : Params) (r : Remote) (c : Call) :
    assemble p (applyCall r c) = assemble p r :=
  assemble_congr p _ r (applyCall_organizations r c) (applyCall_locations r c)
    (applyCall_smart_proxies r c)

theorem assemble_applyCalls (p : Params) (r : Remote) (l : List Call) :
    assemble p (applyCalls r l) = assemble p r := by
  induction l generalizing r with
  | nil => rfl
  | cons a rest ih =>
    unfold applyCalls at *
    simp only [List.foldl_cons]
    rw [ih (applyCall r a), assemble_applyCall]

theorem get_resources_ok_length (r : Remote) (rt : String) (specs : List String)
    (ress : List FRes) (cs : List Call)
    (h : get_resources r rt specs = (Except.ok ress, cs)) :
    ress.length = specs.length := by
  induction specs generalizing ress cs with
  | nil =>
    have he : get_resources r rt [] = ((Except.ok [] : Except String (List FRes)), ([] : List Call)) := rfl
    rw [he] at h
    cases h
    rfl
  | cons a rest ih =>
    unfold get_resources at h
    match hsr : search_resource r rt a with
    | none =>
      rw [hsr] at h
      cases h
    | some res =>
      rw [hsr] at h
      match hrec : get_resources r rt rest with
      | (Except.ok ress0, cs0) =>
        rw [hrec] at h
        cases h
        simp [ih ress0 cs0 hrec]
      | (Except.error m, cs0) =>
        rw [hrec] at h
        cases h

theorem org_step_ok (p : Params) (r : Remote) (o : Option (List Nat)) (cs : List Call)
    (h : org_step p r = (Except.ok o, cs)) : o.isSome = listTruthy p.organizations := by
  unfold org_step at h
  by_cases ht : listTruthy p.organizations
  · rw [if_pos ht] at h
    match hg : get_organization_ids r (p.organizations.getD []) with
    | (Except.ok ids, cs0) =>
      rw [hg] at h
      cases h
      simp [ht]
    | (Except.error m, cs0) =>
      rw [hg] at h
      cases h
  · rw [if_neg ht] at h
    cases h
    simp [ht]

theorem loc_step_ok (p : Params) (r : Remote) (o : Option (List Nat)) (cs : List Call)
    (h : loc_step p r = (Except.ok o, cs)) : o.isSome = listTruthy p.locations := by
  unfold loc_step at h
  by_cases ht : listTruthy p.locations
  · rw [if_pos ht] at h
    match hg : get_location_ids r (p.locations.getD []) with
    | (Except.ok ids, cs0) =>
      rw [hg] at h
      cases h
      simp [ht]
    | (Except.error m, cs0) =>
      rw [hg] at h
      cases h
  · rw [if_neg ht] at h
    cases h
    simp [ht]

theorem dns_step_ok (p : Params) (r : Remote) (o : Option Nat) (cs : List Call)
    (h : dns_step p r = (Except.ok o, cs)) : o.isSome = strTruthy p.dns_proxy := by
  unfold dns_step at h
  by_cases ht : strTruthy p.dns_proxy
  · rw [if_pos ht] at h
    match hg : get_resources r "smart_proxies" [p.dns_proxy.getD ""] with
    | (Except.ok ress, cs0) =>
      have hlen := get_resources_ok_length r "smart_proxies" [p.dns_proxy.getD ""] ress cs0 hg
      rw [hg] at h
      cases h
      match ress, hlen with
      | [x], _ => simp [ht]
    | (Except.error m, cs0) =>
      rw [hg] at h
      cases h
  · rw [if_neg ht] at h
    cases h
    simp [ht]

theorem assemble_ok_inv (p : Params) (r : Remote) (data : DomainData) (acalls : List Call)
    (h : assemble p r = (Except.ok data, acalls)) :
    ∃ o cs1 l cs2 dn cs3,
      org_step p r = (Except.ok o, cs1) ∧ loc_step p r = (Except.ok l, cs2) ∧
      dns_step p r = (Except.ok dn, cs3) ∧
      data = { name := p.name
               fullname := p.fullname
               organization_ids := o
               location_ids := l
               dns_id := dn } ∧
      acalls = cs1 ++ (cs2 ++ cs3) := by
  unfold assemble at h
  match ho : org_step p r with
  | (Except.error m, cs) => rw [ho] at h; cases h
  | (Except.ok o, cs1) =>
    rw [ho] at h
    match hl : loc_step p r with
    | (Except.error m, cs) => rw [hl] at h; cases h
    | (Except.ok l, cs2) =>
      rw [hl] at h
      match hd : dns_step p r with
      | (Except.error m, cs) => rw [hd] at h; cases h
      | (Except.ok dn, cs3) =>
        rw [hd] at h
        cases h
        exact ⟨o, cs1, l, cs2, dn, cs3, rfl, rfl, rfl, rfl, rfl⟩

theorem assemble_ok_shape (p : Params) (r : Remote) (data : DomainData) (acalls : List Call)
    (h : assemble p r = (Except.ok data, acalls)) :
    data.name = p.name ∧ data.fullname = p.fullname ∧
    data.organization_ids.isSome = listTruthy p.organizations ∧
    data.location_ids.isSome = listTruthy p.locations ∧
    data.dns_id.isSome = strTruthy p.dns_proxy := by
  obtain ⟨o, cs1, l, cs2, dn, cs3, ho, hl, hd, hdata, -⟩ := assemble_ok_inv p r data acalls h
  rw [hdata]
  exact ⟨rfl, rfl, org_step_ok p r o cs1 ho, loc_step_ok p r l cs2 hl, dns_step_ok p r dn cs3 hd⟩

theorem sameIdSet_refl (a : List Nat) : sameIdSet a a = true := by
  simp [sameIdSet, List.all_eq_true]

theorem domains_equal_create (r : Remote) (data : DomainData) :
    domains_equal data (create_result r data) comparable_keys = true := by
  obtain ⟨n, fn, oids, lids, dns⟩ := data
  unfold domains_equal comparable_keys create_result data_get domain_get
    organizations_equal locations_equal
  cases oids <;> cases lids <;> cases fn <;> simp [optStrVal, sameIdSet_refl]

theorem domains_equal_update (d : RemoteDomain) (data : DomainData) :
    domains_equal data (update_apply d data) comparable_keys = true := by
  obtain ⟨n, fn, oids, lids, dns⟩ := data
  unfold domains_equal comparable_keys update_apply data_get domain_get
    organizations_equal locations_equal
  cases oids <;> cases lids <;> cases fn <;> simp [optStrVal, sameIdSet_refl]

theorem ensure_assemble_error (p : Params) (r : Remote) (m : String) (acalls : List Call)
    (hasm : assemble p r = (Except.error m, acalls)) :
    ensure p r = (Except.error m, fetch_calls r p.name ++ acalls) := by
  unfold ensure
  rw [hasm]

theorem ensure_create (p : Params) (r : Remote) (data : DomainData) (acalls : List Call)
    (hasm : assemble p r = (Except.ok data, acalls))
    (hfetch : fetch_domain r p.name = none)
    (hstate : p.state = "present") :
    ensure p r = (Except.ok (true, some (create_result r data)),
      (fetch_calls r p.name ++ acalls) ++ [Call.createDomain data]) := by
  unfold ensure
  rw [hasm]
  simp only [hfetch, if_pos hstate]

theorem ensure_noop_absent (p : Params) (r : Remote) (data : DomainData) (acalls : List Call)
    (hasm : assemble p r = (Except.ok data, acalls))
    (hfetch : fetch_domain r p.name = none)
    (hstate : ¬(p.state = "present")) :
    ensure p r = (Except.ok (false, none), fetch_calls r p.name ++ acalls) := by
  unfold ensure
  rw [hasm]
  simp only [hfetch, if_neg hstate]

theorem ensure_delete (p : Params) (r : Remote) (data : DomainData) (acalls : List Call)
    (d : RemoteDomain)
    (hasm : assemble p r = (Except.ok data, acalls))
    (hfetch : fetch_domain r p.name = some d)
    (hstate : p.state = "absent") :
    ensure p r = (Except.ok (true, some d),
      (fetch_calls r p.name ++ acalls) ++ [Call.deleteDomain d.id]) := by
  unfold ensure
  rw [hasm]
  simp only [hfetch, if_pos hstate]

theorem ensure_update (p : Params) (r : Remote) (data : DomainData) (acalls : List Call)
    (d : RemoteDomain)
    (hasm : assemble p r = (Except.ok data, acalls))
    (hfetch : fetch_domain r p.name = some d)
    (hstate : ¬(p.state = "absent"))
    (hne : domains_equal data d comparable_keys = false) :
    ensure p r = (Except.ok (true, some (update_apply d data)),
      (fetch_calls r p.name ++ acalls) ++ [Call.updateDomain d.id data]) := by
  unfold ensure
  rw [hasm]
  simp only [hfetch, if_neg hstate, hne]
  simp

theorem ensure_noop_equal (p : Params) (r : Remote) (data : DomainData) (acalls : List Call)
    (d : RemoteDomain)
    (hasm : assemble p r = (Except.ok data, acalls))
    (hfetch : fetch_domain r p.name = some d)
    (hstate : ¬(p.state = "absent"))
    (heq : domains_equal data d comparable_keys = true) :
    ensure p r = (Except.ok (false, some d), fetch_calls r p.name ++ acalls) := by
  unfold ensure
  rw [hasm]
  simp only [hfetch, if_neg hstate, heq]
  simp

theorem fetch_after_create (r : Remote) (hwf : r.wf) (data : DomainData) (n : String)
    (hname : data.name = n)
    (hnone : search_domain r n = none) :
    fetch_domain { r with
      domains := r.domains ++ [create_result r data]
      nextId := r.nextId + 1 } n = some (create_result r data) := by
  have hsearch : search_domain { r with
      domains := r.domains ++ [create_result r data]
      nextId := r.nextId + 1 } n = some (create_result r data) := by
    unfold search_domain
    apply find?_of_unique _ _ (create_result r data) (by simp)
    · simp [create_result, hname]
    · intro x hx hpx
      simp at hx
      rcases hx with hx | hx
      · have hxn : x.name = n := by simpa using hpx
        exact absurd hxn (search_domain_not_found r n hnone x hx)
      · exact hx
  unfold fetch_domain
  rw [hsearch]
  unfold get_domain
  apply find?_of_unique _ _ (create_result r data) (by simp)
  · simp
  · intro x hx hpx
    simp at hx
    rcases hx with hx | hx
    · have hxid : x.id = (create_result r data).id := by simpa using hpx
      have hlt := hwf.2 x hx
      have : (create_result r data).id = r.nextId := rfl
      rw [this] at hxid
      omega
    · exact hx

theorem fetch_after_delete (r : Remote) (hwf : r.wf) (d : RemoteDomain) (n : String)
    (hs : search_domain r n = some d) :
    fetch_domain { r with
      domains := r.domains.filter (fun x => !(x.id == d.id)) } n = none := by
  obtain ⟨hd, hdn⟩ := search_domain_found r n d hs
  have hsearch : search_domain { r with
      domains := r.domains.filter (fun x => !(x.id == d.id)) } n = none := by
    unfold search_domain
    rw [List.find?_eq_none]
    intro x hx
    simp only [List.mem_filter] at hx
    obtain ⟨hxmem, hxid⟩ := hx
    have hxid' : x.id ≠ d.id := by simpa using hxid
    have hxd : x ≠ d := fun he => hxid' (he ▸ rfl)
    have := (wf_distinct r hwf x d hxmem hd hxd).2
    rw [hdn] at this
    simpa using this
  unfold fetch_domain
  rw [hsearch]

theorem fetch_after_update (r : Remote) (hwf : r.wf) (d : RemoteDomain) (data : DomainData)
    (n : String)
    (hs : search_domain r n = some d)
    (hname : data.name = n) :
    fetch_domain { r with
      domains := r.domains.map (fun x => if x.id = d.id then update_apply x data else x) } n
      = some (update_apply d data) := by
  obtain ⟨hd, hdn⟩ := search_domain_found r n d hs
  have hmem : update_apply d data ∈
      r.domains.map (fun x => if x.id = d.id then update_apply x data else x) := by
    apply List.mem_map.mpr
    exact ⟨d, hd, by simp⟩
  have huniq : ∀ x ∈ r.domains.map (fun x => if x.id = d.id then update_apply x data else x),
      ∀ key : Bool, (key = (x.name == n) ∨ key = (x.id == (update_apply d data).id)) →
        key = true → x = update_apply d data := by
    intro x hx key hkey hkeyt
    obtain ⟨y, hy, hfy⟩ := List.mem_map.mp hx
    by_cases hyid : y.id = d.id
    · have : y = d := unique_by_id r hwf y d hy hd hyid
      rw [if_pos hyid] at hfy
      rw [this] at hfy
      exact hfy.symm
    · rw [if_neg hyid] at hfy
      subst hfy
      rcases hkey with hk | hk
      · rw [hkeyt] at hk
        have hxn : y.name = n := by simpa using hk.symm
        have : y = d := unique_by_name r hwf y d hy hd (by rw [hxn, hdn])
        exact absurd (this ▸ rfl) hyid
      · rw [hkeyt] at hk
        have hxid : y.id = (update_apply d data).id := by simpa using hk.symm
        have : (update_apply d data).id = d.id := rfl
        rw [this] at hxid
        exact absurd hxid hyid
  have hsearch : search_domain { r with
      domains := r.domains.map (fun x => if x.id = d.id then update_apply x data else x) } n
      = some (update_apply d data) := by
    unfold search_domain
    apply find?_of_unique _ _ (update_apply d data) hmem
    · have : (update_apply d data).name = data.name := rfl
      simp [this, hname]
    · intro x hx hpx
      exact huniq x hx (x.name == n) (Or.inl rfl) hpx
  unfold fetch_domain
  rw [hsearch]
  unfold get_domain
  apply find?_of_unique _ _ (update_apply d data) hmem
  · simp
  · intro x hx hpx
    exact huniq x hx (x.id == (update_apply d data).id) (Or.inr rfl) hpx

theorem base_calls_readonly (p : Params) (r : Remote) (data : DomainData) (acalls : List Call)
    (hasm : assemble p r = (Except.ok data, acalls)) :
    ∀ c ∈ fetch_calls r p.name ++ acalls, isMutating c = false := by
  intro c hc
  rcases List.mem_append.mp hc with h | h
  · exact fetch_calls_readonly r p.name c h
  · have := assemble_calls_readonly p r c
    rw [hasm] at this
    exact this h

theorem base_calls_readonly_error (p : Params) (r : Remote) (m : String) (acalls : List Call)
    (hasm : assemble p r = (Except.error m, acalls)) :
    ∀ c ∈ fetch_calls r p.name ++ acalls, isMutating c = false := by
  intro c hc
  rcases List.mem_append.mp hc with h | h
  · exact fetch_calls_readonly r p.name c h
  · have := assemble_calls_readonly p r c
    rw [hasm] at this
    exact this h

theorem domains_equal_fullname_ne (data : DomainData) (d : RemoteDomain)
    (h : data.fullname = none) (h2 : d.fullname ≠ none) :
    domains_equal data d comparable_keys = false := by
  obtain ⟨s, hs⟩ := Option.ne_none_iff_exists'.mp h2
  unfold domains_equal comparable_keys data_get domain_get
  simp [h, hs, optStrVal]

theorem get_resources_error_of_missing (r : Remote) (rt : String) (specs : List String)
    (n : String) (hn : n ∈ specs) (hmiss : search_resource r rt n = none) :
    ∃ m, (get_resources r rt specs).1 = Except.error m := by
  induction specs with
  | nil => cases hn
  | cons a rest ih =>
    unfold get_resources
    match hsr : search_resource r rt a with
    | none =>
      exact ⟨"Could not find resource type " ++ rt ++ " defined as " ++ a, rfl⟩
    | some res =>
      have hn' : n ∈ rest := by
        rcases List.mem_cons.mp hn with he | hmem
        · rw [he] at hmiss
          rw [hmiss] at hsr
          cases hsr
        · exact hmem
      obtain ⟨m, hm⟩ := ih hn'
      match hrec : get_resources r rt rest with
      | (Except.ok ress, cs) =>
        rw [hrec] at hm
        cases hm
      | (Except.error m0, cs) =>
        exact ⟨m0, rfl⟩

theorem get_resources_error_shape (r : Remote) (rt : String) (specs : List String)
    (m : String) (cs : List Call)
    (h : (get_resources r rt specs).1 = Except.error m) :
    ∃ spec, m = "Could not find resource type " ++ rt ++ " defined as " ++ spec ∧
      search_resource r rt spec = none := by
  induction specs generalizing m with
  | nil =>
    have : (get_resources r rt []).1 = Except.ok [] := rfl
    rw [this] at h
    cases h
  | cons a rest ih =>
    unfold get_resources at h
    match hsr : search_resource r rt a with
    | none =>
      rw [hsr] at h
      simp at h
      exact ⟨a, h.symm, hsr⟩
    | some res =>
      rw [hsr] at h
      match hrec : get_resources r rt rest with
      | (Except.ok ress, cs0) =>
        rw [hrec] at h
        cases h
      | (Except.error m0, cs0) =>
        rw [hrec] at h
        simp at h
        have := ih m0 (by rw [hrec])
        rw [h] at this
        exact this

theorem org_step_error_of (p : Params) (r : Remote) (m : String)
    (ht : listTruthy p.organizations = true)
    (hm : (get_resources r "organizations" (p.organizations.getD [])).1 = Except.error m) :
    (org_step p r).1 = Except.error m := by
  unfold org_step
  rw [if_pos ht]
  unfold get_organization_ids
  rcases hge : get_resources r "organizations" (p.organizations.getD []) with ⟨x, cs⟩
  rw [hge] at hm
  cases x with
  | ok ress => cases hm
  | error m0 =>
    simp at hm
    rw [hm]

theorem loc_step_error_of (p : Params) (r : Remote) (m : String)
    (ht : listTruthy p.locations = true)
    (hm : (get_resources r "locations" (p.locations.getD [])).1 = Except.error m) :
    (loc_step p r).1 = Except.error m := by
  unfold loc_step
  rw [if_pos ht]
  unfold get_location_ids
  rcases hge : get_resources r "locations" (p.locations.getD []) with ⟨x, cs⟩
  rw [hge] at hm
  cases x with
  | ok ress => cases hm
  | error m0 =>
    simp at hm
    rw [hm]

theorem dns_step_error_of (p : Params) (r : Remote) (m : String)
    (ht : strTruthy p.dns_proxy = true)
    (hm : (get_resources r "smart_proxies" [p.dns_proxy.getD ""]).1 = Except.error m) :
    (dns_step p r).1 = Except.error m := by
  unfold dns_step
  rw [if_pos ht]
  rcases hge : get_resources r "smart_proxies" [p.dns_proxy.getD ""] with ⟨x, cs⟩
  rw [hge] at hm
  cases x with
  | ok ress => cases hm
  | error m0 =>
    simp at hm
    rw [hm]

theorem assemble_error_of_org (p : Params) (r : Remote) (m : String)
    (h : (org_step p r).1 = Except.error m) :
    ∃ acalls, assemble p r = (Except.error m, acalls) := by
  unfold assemble
  rcases ho : org_step p r with ⟨x, cs1⟩
  rw [ho] at h
  cases x with
  | error m1 =>
    simp at h
    rw [h]
    exact ⟨cs1, rfl⟩
  | ok o => cases h

theorem assemble_error_of_loc (p : Params) (r : Remote) (m : String)
    (o : Option (List Nat)) (cs1 : List Call)
    (ho : org_step p r = (Except.ok o, cs1))
    (h : (loc_step p r).1 = Except.error m) :
    ∃ acalls, assemble p r = (Except.error m, acalls) := by
  unfold assemble
  rw [ho]
  rcases hl : loc_step p r with ⟨x, cs2⟩
  rw [hl] at h
  cases x with
  | error m1 =>
    simp at h
    rw [h]
    exact ⟨cs1 ++ cs2, rfl⟩
  | ok l => cases h

theorem assemble_error_of_dns (p : Params) (r : Remote) (m : String)
    (o l : Option (List Nat)) (cs1 cs2 : List Call)
    (ho : org_step p r = (Except.ok o, cs1))
    (hl : loc_step p r = (Except.ok l, cs2))
    (h : (dns_step p r).1 = Except.error m) :
    ∃ acalls, assemble p r = (Except.error m, acalls) := by
  unfold assemble
  rw [ho, hl]
  rcases hd : dns_step p r with ⟨x, cs3⟩
  rw [hd] at h
  cases x with
  | error m1 =>
    simp at h
    rw [h]
    exact ⟨cs1 ++ (cs2 ++ cs3), rfl⟩
  | ok dn => cases h

theorem assemble_error_of_badRef (p : Params) (r : Remote) (h : badRef p r) :
    ∃ m acalls, assemble p r = (Except.error m, acalls) := by
  rcases h with ⟨ht, n, hn, hmiss⟩ | ⟨ht, n, hn, hmiss⟩ | ⟨ht, hmiss⟩
  · obtain ⟨m, hm⟩ := get_resources_error_of_missing r "organizations"
      (p.organizations.getD []) n hn hmiss
    obtain ⟨acalls, ha⟩ := assemble_error_of_org p r m (org_step_error_of p r m ht hm)
    exact ⟨m, acalls, ha⟩
  · rcases ho : org_step p r with ⟨x, cs1⟩
    cases x with
    | error m1 =>
      obtain ⟨acalls, ha⟩ := assemble_error_of_org p r m1 (by rw [ho])
      exact ⟨m1, acalls, ha⟩
    | ok o =>
      obtain ⟨m, hm⟩ := get_resources_error_of_missing r "locations"
        (p.locations.getD []) n hn hmiss
      obtain ⟨acalls, ha⟩ := assemble_error_of_loc p r m o cs1 ho
        (loc_step_error_of p r m ht hm)
      exact ⟨m, acalls, ha⟩
  · rcases ho : org_step p r with ⟨x, cs1⟩
    cases x with
    | error m1 =>
      obtain ⟨acalls, ha⟩ := assemble_error_of_org p r m1 (by rw [ho])
      exact ⟨m1, acalls, ha⟩
    | ok o =>
      rcases hl : loc_step p r with ⟨y, cs2⟩
      cases y with
      | error m1 =>
        obtain ⟨acalls, ha⟩ := assemble_error_of_loc p r m1 o cs1 ho (by rw [hl])
        exact ⟨m1, acalls, ha⟩
      | ok l =>
        obtain ⟨m, hm⟩ := get_resources_error_of_missing r "smart_proxies"
          [p.dns_proxy.getD ""] (p.dns_proxy.getD "") (by simp) hmiss
        obtain ⟨acalls, ha⟩ := assemble_error_of_dns p r m o l cs1 cs2 ho hl
          (dns_step_error_of p r m ht hm)
        exact ⟨m, acalls, ha⟩

theorem org_step_error_shape (p : Params) (r : Remote) (m : String) (cs1 : List Call)
    (ho : org_step p r = (Except.error m, cs1)) :
    ∃ spec, m = "Could not find resource type " ++ "organizations" ++ " defined as " ++ spec ∧
      search_resource r "organizations" spec = none := by
  unfold org_step at ho
  by_cases ht : listTruthy p.organizations
  · rw [if_pos ht] at ho
    unfold get_organization_ids at ho
    rcases hg : get_resources r "organizations" (p.organizations.getD []) with ⟨y, cs⟩
    rw [hg] at ho
    cases y with
    | ok ress => cases ho
    | error m0 =>
      simp at ho
      obtain ⟨spec, hspec, hfind⟩ := get_resources_error_shape r "organizations"
        (p.organizations.getD []) m0 cs (by rw [hg])
      exact ⟨spec, by rw [← ho.1, hspec], hfind⟩
  · rw [if_neg ht] at ho
    cases ho

theorem loc_step_error_shape (p : Params) (r : Remote) (m : String) (cs2 : List Call)
    (hl : loc_step p r = (Except.error m, cs2)) :
    ∃ spec, m = "Could not find resource type " ++ "locations" ++ " defined as " ++ spec ∧
      search_resource r "locations" spec = none := by
  unfold loc_step at hl
  by_cases ht : listTruthy p.locations
  · rw [if_pos ht] at hl
    unfold get_location_ids at hl
    rcases hg : get_resources r "locations" (p.locations.getD []) with ⟨y, cs⟩
    rw [hg] at hl
    cases y with
    | ok ress => cases hl
    | error m0 =>
      simp at hl
      obtain ⟨spec, hspec, hfind⟩ := get_resources_error_shape r "locations"
        (p.locations.getD []) m0 cs (by rw [hg])
      exact ⟨spec, by rw [← hl.1, hspec], hfind⟩
  · rw [if_neg ht] at hl
    cases hl

theorem dns_step_error_shape (p : Params) (r : Remote) (m : String) (cs3 : List Call)
    (hd : dns_step p r = (Except.error m, cs3)) :
    ∃ spec, m = "Could not find resource type " ++ "smart_proxies" ++ " defined as " ++ spec ∧
      search_resource r "smart_proxies" spec = none := by
  unfold dns_step at hd
  by_cases ht : strTruthy p.dns_proxy
  · rw [if_pos ht] at hd
    rcases hg : get_resources r "smart_proxies" [p.dns_proxy.getD ""] with ⟨y, cs⟩
    rw [hg] at hd
    cases y with
    | ok ress => cases hd
    | error m0 =>
      simp at hd
      obtain ⟨spec, hspec, hfind⟩ := get_resources_error_shape r "smart_proxies"
        [p.dns_proxy.getD ""] m0 cs (by rw [hg])
      exact ⟨spec, by rw [← hd.1, hspec], hfind⟩
  · rw [if_neg ht] at hd
    cases hd

theorem assemble_error_shape (p : Params) (r : Remote) (m : String) (acalls : List Call)
    (h : assemble p r = (Except.error m, acalls)) :
    ∃ rt spec, m = "Could not find resource type " ++ rt ++ " defined as " ++ spec ∧
      search_resource r rt spec = none := by
  unfold assemble at h
  rcases ho : org_step p r with ⟨x, cs1⟩
  rw [ho] at h
  cases x with
  | error m1 =>
    simp at h
    obtain ⟨spec, hspec, hfind⟩ := org_step_error_shape p r m1 cs1 ho
    exact ⟨"organizations", spec, by rw [← h.1, hspec], hfind⟩
  | ok o =>
    rcases hl : loc_step p r with ⟨y, cs2⟩
    rw [hl] at h
    cases y with
    | error m1 =>
      simp at h
      obtain ⟨spec, hspec, hfind⟩ := loc_step_error_shape p r m1 cs2 hl
      exact ⟨"locations", spec, by rw [← h.1, hspec], hfind⟩
    | ok l =>
      rcases hd : dns_step p r with ⟨z, cs3⟩
      rw [hd] at h
      cases z with
      | error m1 =>
        simp at h
        obtain ⟨spec, hspec, hfind⟩ := dns_step_error_shape p r m1 cs3 hd
        exact ⟨"smart_proxies", spec, by rw [← h.1, hspec], hfind⟩
      | ok dn => cases h

/-- C1: when a remote domain named `desired.name` exists, the state is `present`,
and the existing record agrees with the assembled data on every compared field
(name, fullname, organization-id set, location-id set) while differing in
`dns_id`, no update call is issued and the result is `(false, existing_record)`:
`domains_equal` compares name and fullname but never `dns_id`, so a changed
dns_proxy alone never triggers an update. -/
theorem c1_changed_dns_never_triggers_update
    (p : Params) (r : Remote) (d : RemoteDomain) (data : DomainData) (acalls : List Call)
    (hstate : p.state = "present")
    (hfetch : fetch_domain r p.name = some d)
    (hasm : assemble p r = (Except.ok data, acalls))
    (heq : domains_equal data d comparable_keys = true)
    (hdns : data.dns_id ≠ d.dns_id) :
    (ensure p r).1 = Except.ok (false, some d) ∧
    (ensure p r).2.filter isMutating = [] := by
  have habs : ¬(p.state = "absent") := by rw [hstate]; decide
  have he := ensure_noop_equal p r data acalls d hasm hfetch habs heq
  rw [he]
  exact ⟨rfl, filter_mut_nil _ (base_calls_readonly p r data acalls hasm)⟩

/-- C1 witness: a concrete remote whose domain record carries `dns_id = 9` while
the desired dns proxy resolves to id 2; the run is a no-op. -/
theorem c1_witness :
    (ensure ⟨"example.com", none, some "dns1", "present", none, none⟩
      ⟨[⟨1, "example.com", none, some 9, [], []⟩], [], [], [⟨"dns1", 2⟩], 5⟩).1 =
      Except.ok (false, some ⟨1, "example.com", none, some 9, [], []⟩) :=
  (c1_changed_dns_never_triggers_update
    ⟨"example.com", none, some "dns1", "present", none, none⟩
    ⟨[⟨1, "example.com", none, some 9, [], []⟩], [], [], [⟨"dns1", 2⟩], 5⟩
    ⟨1, "example.com", none, some 9, [], []⟩
    ⟨"example.com", none, none, none, some 2⟩
    [Call.searchResource "smart_proxies" "dns1"]
    rfl rfl rfl (by decide) (by decide)).1

/-- C4: when no remote domain named `desired.name` exists, the state is `present`
and all references resolve, exactly one create call is issued carrying the
assembled field set (name, fullname always; dns_id, organization_ids and
location_ids exactly when the corresponding parameter was given), and the
result is `(true, created_record)`. -/
theorem c4_create_when_absent
    (p : Params) (r : Remote) (data : DomainData) (acalls : List Call)
    (hstate : p.state = "present")
    (hfetch : fetch_domain r p.name = none)
    (hasm : assemble p r = (Except.ok data, acalls)) :
    (ensure p r).1 = Except.ok (true, some (create_result r data)) ∧
    (ensure p r).2.filter isMutating = [Call.createDomain data] ∧
    data.name = p.name ∧ data.fullname = p.fullname ∧
    data.organization_ids.isSome = listTruthy p.organizations ∧
    data.location_ids.isSome = listTruthy p.locations ∧
    data.dns_id.isSome = strTruthy p.dns_proxy := by
  have he := ensure_create p r data acalls hasm hfetch hstate
  rw [he]
  obtain ⟨h1, h2, h3, h4, h5⟩ := assemble_ok_shape p r data acalls hasm
  refine ⟨rfl, ?_, h1, h2, h3, h4, h5⟩
  rw [List.filter_append, filter_mut_nil _ (base_calls_readonly p r data acalls hasm)]
  rfl

/-- C4 witness: the spec's worked scenario — empty remote, organizations and
locations resolving to ids 1 and 2, 3; one create call results. -/
theorem c4_witness :
    (ensure ⟨"example.com", some "Example domain", none, "present",
        some ["Torchlight"], some ["Cardiff", "London"]⟩
      ⟨[], [⟨"Torchlight", 1⟩], [⟨"Cardiff", 2⟩, ⟨"London", 3⟩], [], 10⟩).2.filter isMutating =
      [Call.createDomain ⟨"example.com", some "Example domain", some [1], some [2, 3], none⟩] :=
  (c4_create_when_absent
    ⟨"example.com", some "Example domain", none, "present",
      some ["Torchlight"], some ["Cardiff", "London"]⟩
    ⟨[], [⟨"Torchlight", 1⟩], [⟨"Cardiff", 2⟩, ⟨"London", 3⟩], [], 10⟩
    ⟨"example.com", some "Example domain", some [1], some [2, 3], none⟩
    [Call.searchResource "organizations" "Torchlight",
     Call.searchResource "locations" "Cardiff", Call.searchResource "locations" "London"]
    rfl rfl rfl).2.1

/-- C5: when the domain exists, the state is `present` and a compared field
differs (`domains_equal` is false), exactly one update call is issued by id
carrying the entire assembled field set, and the result is
`(true, updated_record)`. -/
theorem c5_update_on_difference
    (p : Params) (r : Remote) (d : RemoteDomain) (data : DomainData) (acalls : List Call)
    (hstate : p.state = "present")
    (hfetch : fetch_domain r p.name = some d)
    (hasm : assemble p r = (Except.ok data, acalls))
    (hne : domains_equal data d comparable_keys = false) :
    (ensure p r).1 = Except.ok (true, some (update_apply d data)) ∧
    (ensure p r).2.filter isMutating = [Call.updateDomain d.id data] := by
  have habs : ¬(p.state = "absent") := by rw [hstate]; decide
  have he := ensure_update p r data acalls d hasm hfetch habs hne
  rw [he]
  refine ⟨rfl, ?_⟩
  rw [List.filter_append, filter_mut_nil _ (base_calls_readonly p r data acalls hasm)]
  rfl

/-- C5 witness: a record differing only in fullname receives one full-payload
update call. -/
theorem c5_witness :
    (ensure ⟨"d5", some "new", none, "present", none, none⟩
      ⟨[⟨7, "d5", some "old", none, [], []⟩], [], [], [], 9⟩).2.filter isMutating =
      [Call.updateDomain 7 ⟨"d5", some "new", none, none, none⟩] :=
  (c5_update_on_difference
    ⟨"d5", some "new", none, "present", none, none⟩
    ⟨[⟨7, "d5", some "old", none, [], []⟩], [], [], [], 9⟩
    ⟨7, "d5", some "old", none, [], []⟩
    ⟨"d5", some "new", none, none, none⟩
    [] rfl rfl rfl (by decide)).2

/-- C6 counterexample: with an existing domain and `state=absent` but an
organization name that resolves to zero matches, the invocation fails during
reference resolution and no delete call is issued, contradicting the claim
that every such invocation issues exactly one delete and returns
`(true, deletion_result)`. -/
theorem c6_counterexample :
    (ensure ⟨"example.com", none, none, "absent", some ["Torchlight"], none⟩
      ⟨[⟨1, "example.com", none, none, [], []⟩], [], [], [], 2⟩).1 =
      Except.error "Could not find resource type organizations defined as Torchlight" ∧
    (ensure ⟨"example.com", none, none, "absent", some ["Torchlight"], none⟩
      ⟨[⟨1, "example.com", none, none, [], []⟩], [], [], [], 2⟩).2.filter isMutating = [] :=
  ⟨rfl, rfl⟩

/-- C6 (amended): when a remote domain named `desired.name` exists, the state is
`absent`, and all provided references resolve, exactly one delete call is
issued by the existing record's id and the result is `(true, deletion_result)`;
no create or update call is issued. -/
theorem c6_delete_when_found_absent
    (p : Params) (r : Remote) (d : RemoteDomain) (data : DomainData) (acalls : List Call)
    (hstate : p.state = "absent")
    (hfetch : fetch_domain r p.name = some d)
    (hasm : assemble p r = (Except.ok data, acalls)) :
    (ensure p r).1 = Except.ok (true, some d) ∧
    (ensure p r).2.filter isMutating = [Call.deleteDomain d.id] := by
  have he := ensure_delete p r data acalls d hasm hfetch hstate
  rw [he]
  refine ⟨rfl, ?_⟩
  rw [List.filter_append, filter_mut_nil _ (base_calls_readonly p r data acalls hasm)]
  rfl

/-- C6 witness: an existing domain with `state=absent` and no references is
deleted by id. -/
theorem c6_witness :
    (ensure ⟨"d6", none, none, "absent", none, none⟩
      ⟨[⟨3, "d6", none, none, [], []⟩], [], [], [], 4⟩).2.filter isMutating =
      [Call.deleteDomain 3] :=
  (c6_delete_when_found_absent
    ⟨"d6", none, none, "absent", none, none⟩
    ⟨[⟨3, "d6", none, none, [], []⟩], [], [], [], 4⟩
    ⟨3, "d6", none, none, [], []⟩
    ⟨"d6", none, none, none, none⟩
    [] rfl rfl rfl).2

/-- C7: when no domain exists and the state is `absent` (references resolving),
the result is `(false, null)` with no mutating call; when the domain exists,
the state is `present` and every compared field is equal, the result is
`(false, existing_record)` with no mutating call. -/
theorem c7_noop_branches :
    (∀ (p : Params) (r : Remote) (data : DomainData) (acalls : List Call),
      p.state = "absent" → fetch_domain r p.name = none →
      assemble p r = (Except.ok data, acalls) →
      (ensure p r).1 = Except.ok (false, none) ∧
      (ensure p r).2.filter isMutating = []) ∧
    (∀ (p : Params) (r : Remote) (d : RemoteDomain) (data : DomainData) (acalls : List Call),
      p.state = "present" → fetch_domain r p.name = some d →
      assemble p r = (Except.ok data, acalls) →
      domains_equal data d comparable_keys = true →
      (ensure p r).1 = Except.ok (false, some d) ∧
      (ensure p r).2.filter isMutating = []) := by
  constructor
  · intro p r data acalls hstate hfetch hasm
    have hp : ¬(p.state = "present") := by rw [hstate]; decide
    have he := ensure_noop_absent p r data acalls hasm hfetch hp
    rw [he]
    exact ⟨rfl, filter_mut_nil _ (base_calls_readonly p r data acalls hasm)⟩
  · intro p r d data acalls hstate hfetch hasm heq
    have habs : ¬(p.state = "absent") := by rw [hstate]; decide
    have he := ensure_noop_equal p r data acalls d hasm hfetch habs heq
    rw [he]
    exact ⟨rfl, filter_mut_nil _ (base_calls_readonly p r data acalls hasm)⟩

/-- C7 witness: both no-op branches at concrete inputs — absent with no record,
and present with an identical record. -/
theorem c7_witness :
    (ensure ⟨"d7", none, none, "absent", none, none⟩ ⟨[], [], [], [], 1⟩).1 =
      Except.ok (false, none) ∧
    (ensure ⟨"d7", some "f", none, "present", none, none⟩
      ⟨[⟨2, "d7", some "f", none, [], []⟩], [], [], [], 3⟩).1 =
      Except.ok (false, some ⟨2, "d7", some "f", none, [], []⟩) :=
  ⟨(c7_noop_branches.1 ⟨"d7", none, none, "absent", none, none⟩ ⟨[], [], [], [], 1⟩
      ⟨"d7", none, none, none, none⟩ [] rfl rfl rfl).1,
   (c7_noop_branches.2 ⟨"d7", some "f", none, "present", none, none⟩
      ⟨[⟨2, "d7", some "f", none, [], []⟩], [], [], [], 3⟩
      ⟨2, "d7", some "f", none, [], []⟩
      ⟨"d7", some "f", none, none, none⟩ [] rfl rfl rfl (by decide)).1⟩

/-- C3: on every invocation, whatever branch is taken, at most one mutating call
(create, update or delete) appears in the trace, every call before the last is
read-only, and consequently nothing follows the single mutating call. -/
theorem c3_at_most_one_mutating_call (p : Params) (r : Remote) :
    ((ensure p r).2.filter isMutating).length ≤ 1 ∧
    ∀ c ∈ (ensure p r).2.dropLast, isMutating c = false := by
  rcases hasm : assemble p r with ⟨x, acalls⟩
  cases x with
  | error m =>
    have he := ensure_assemble_error p r m acalls hasm
    rw [he]
    have hro := base_calls_readonly_error p r m acalls hasm
    exact ⟨by rw [filter_mut_nil _ hro]; simp,
      fun c hc => hro c (List.dropLast_subset _ hc)⟩
  | ok data =>
    have hro := base_calls_readonly p r data acalls hasm
    cases hfetch : fetch_domain r p.name with
    | none =>
      by_cases hp : p.state = "present"
      · have he := ensure_create p r data acalls hasm hfetch hp
        rw [he]
        constructor
        · rw [List.filter_append, filter_mut_nil _ hro]
          simp [isMutating]
        · rw [List.dropLast_concat]
          exact hro
      · have he := ensure_noop_absent p r data acalls hasm hfetch hp
        rw [he]
        exact ⟨by rw [filter_mut_nil _ hro]; simp,
          fun c hc => hro c (List.dropLast_subset _ hc)⟩
    | some d =>
      by_cases habs : p.state = "absent"
      · have he := ensure_delete p r data acalls d hasm hfetch habs
        rw [he]
        constructor
        · rw [List.filter_append, filter_mut_nil _ hro]
          simp [isMutating]
        · rw [List.dropLast_concat]
          exact hro
      · by_cases heq : domains_equal data d comparable_keys = true
        · have he := ensure_noop_equal p r data acalls d hasm hfetch habs heq
          rw [he]
          exact ⟨by rw [filter_mut_nil _ hro]; simp,
            fun c hc => hro c (List.dropLast_subset _ hc)⟩
        · have heqf : domains_equal data d comparable_keys = false := by simpa using heq
          have he := ensure_update p r data acalls d hasm hfetch habs heqf
          rw [he]
          constructor
          · rw [List.filter_append, filter_mut_nil _ hro]
            simp [isMutating]
          · rw [List.dropLast_concat]
            exact hro

/-- C8: whenever some provided reference (organization, location or dns proxy
name) resolves to zero matches, the invocation fails with the
could-not-find-resource error naming the resource type and the spec, and no
mutating call is issued. -/
theorem c8_reference_not_found (p : Params) (r : Remote) (h : badRef p r) :
    (∃ rt spec,
      (ensure p r).1 =
        Except.error ("Could not find resource type " ++ rt ++ " defined as " ++ spec) ∧
      search_resource r rt spec = none) ∧
    (ensure p r).2.filter isMutating = [] := by
  obtain ⟨m, acalls, hasm⟩ := assemble_error_of_badRef p r h
  have he := ensure_assemble_error p r m acalls hasm
  obtain ⟨rt, spec, hm, hfind⟩ := assemble_error_shape p r m acalls hasm
  rw [he]
  exact ⟨⟨rt, spec, by rw [hm], hfind⟩,
    filter_mut_nil _ (base_calls_readonly_error p r m acalls hasm)⟩

/-- C8 witness: an organization list naming a non-existent organization makes
the invocation fail before any mutating call. -/
theorem c8_witness :
    (∃ rt spec,
      (ensure ⟨"w8", none, none, "present", some ["NoOrg"], none⟩
        ⟨[], [], [], [], 0⟩).1 =
        Except.error ("Could not find resource type " ++ rt ++ " defined as " ++ spec) ∧
      search_resource ⟨[], [], [], [], 0⟩ rt spec = none) ∧
    (ensure ⟨"w8", none, none, "present", some ["NoOrg"], none⟩
      ⟨[], [], [], [], 0⟩).2.filter isMutating = [] :=
  c8_reference_not_found ⟨"w8", none, none, "present", some ["NoOrg"], none⟩
    ⟨[], [], [], [], 0⟩ (by unfold badRef; decide)

/-- C9: reference resolution runs on every invocation that names references,
even when the branch taken would need no resolved ids — with `state=absent`
and an unresolvable reference the invocation fails instead of deleting or
returning `(false, null)`. -/
theorem c9_resolution_even_when_absent (p : Params) (r : Remote)
    (hstate : p.state = "absent") (h : badRef p r) :
    (∃ m, (ensure p r).1 = Except.error m) ∧
    (ensure p r).2.filter isMutating = [] := by
  obtain ⟨m, acalls, hasm⟩ := assemble_error_of_badRef p r h
  have he := ensure_assemble_error p r m acalls hasm
  rw [he]
  exact ⟨⟨m, rfl⟩, filter_mut_nil _ (base_calls_readonly_error p r m acalls hasm)⟩

/-- C9 witness: `state=absent` with an existing domain and an unresolvable dns
proxy fails with the resolution error and issues no delete. -/
theorem c9_witness :
    (∃ m, (ensure ⟨"w9", none, some "nopx", "absent", none, none⟩
      ⟨[⟨4, "w9", none, none, [], []⟩], [], [], [], 5⟩).1 = Except.error m) ∧
    (ensure ⟨"w9", none, some "nopx", "absent", none, none⟩
      ⟨[⟨4, "w9", none, none, [], []⟩], [], [], [], 5⟩).2.filter isMutating = [] :=
  c9_resolution_even_when_absent ⟨"w9", none, some "nopx", "absent", none, none⟩
    ⟨[⟨4, "w9", none, none, [], []⟩], [], [], [], 5⟩ rfl (by unfold badRef; decide)

/-- C10: the assembled payload always carries the fullname key with exactly the
fullname parameter's value (null when omitted), and fullname takes part in the
equality test: an existing record with a non-null remote fullname and an
omitted fullname parameter receives an update carrying fullname=null, with
result `(true, updated_record)`. -/
theorem c10_fullname_always_in_payload :
    (∀ (p : Params) (r : Remote) (data : DomainData) (acalls : List Call),
      assemble p r = (Except.ok data, acalls) → data.fullname = p.fullname) ∧
    (∀ (p : Params) (r : Remote) (d : RemoteDomain) (data : DomainData) (acalls : List Call),
      p.state = "present" → p.fullname = none → d.fullname ≠ none →
      fetch_domain r p.name = some d →
      assemble p r = (Except.ok data, acalls) →
      (ensure p r).1 = Except.ok (true, some (update_apply d data)) ∧
      (ensure p r).2.filter isMutating = [Call.updateDomain d.id data] ∧
      data.fullname = none) := by
  constructor
  · intro p r data acalls hasm
    exact (assemble_ok_shape p r data acalls hasm).2.1
  · intro p r d data acalls hstate hfn hdfn hfetch hasm
    have hdf : data.fullname = none := by
      rw [(assemble_ok_shape p r data acalls hasm).2.1, hfn]
    have hne := domains_equal_fullname_ne data d hdf hdfn
    have habs : ¬(p.state = "absent") := by rw [hstate]; decide
    have he := ensure_update p r data acalls d hasm hfetch habs hne
    rw [he]
    refine ⟨rfl, ?_, hdf⟩
    rw [List.filter_append, filter_mut_nil _ (base_calls_readonly p r data acalls hasm)]
    rfl

/-- C10 witness: the payload keeps fullname null when the parameter is omitted,
and a remote record with fullname set is updated to clear it. -/
theorem c10_witness :
    (⟨"dX", none, none, none, none⟩ : DomainData).fullname =
      (⟨"dX", none, none, "present", none, none⟩ : Params).fullname ∧
    (ensure ⟨"dX", none, none, "present", none, none⟩
      ⟨[⟨8, "dX", some "full", none, [], []⟩], [], [], [], 9⟩).1 =
      Except.ok (true, some (update_apply ⟨8, "dX", some "full", none, [], []⟩
        ⟨"dX", none, none, none, none⟩)) :=
  ⟨c10_fullname_always_in_payload.1 ⟨"dX", none, none, "present", none, none⟩
      ⟨[⟨8, "dX", some "full", none, [], []⟩], [], [], [], 9⟩
      ⟨"dX", none, none, none, none⟩ [] rfl,
   (c10_fullname_always_in_payload.2 ⟨"dX", none, none, "present", none, none⟩
      ⟨[⟨8, "dX", some "full", none, [], []⟩], [], [], [], 9⟩
      ⟨8, "dX", some "full", none, [], []⟩
      ⟨"dX", none, none, none, none⟩ [] rfl rfl (by decide) rfl rfl).1⟩

/-- C2: for every desired state whose references all resolve, running the
reconciliation a second time against a remote system that has applied the first
run's calls (read-only calls change nothing, the single mutating call is
applied) yields `changed = false`: the second run takes a no-op branch and
issues no mutating call. -/
theorem c2_second_run_no_change (p : Params) (r : Remote) (data : DomainData)
    (acalls : List Call)
    (hwf : r.wf)
    (hasm : assemble p r = (Except.ok data, acalls)) :
    (∃ dom2, (ensure p (applyCalls r (ensure p r).2)).1 = Except.ok (false, dom2)) ∧
    (ensure p (applyCalls r (ensure p r).2)).2.filter isMutating = [] := by
  obtain ⟨hname, hfull, -, -, -⟩ := assemble_ok_shape p r data acalls hasm
  have hro := base_calls_readonly p r data acalls hasm
  cases hsd : search_domain r p.name with
  | none =>
    have hfetch : fetch_domain r p.name = none := by
      rw [fetch_eq_search r hwf p.name, hsd]
    by_cases hp : p.state = "present"
    · have he := ensure_create p r data acalls hasm hfetch hp
      have hcalls : (ensure p r).2 =
          (fetch_calls r p.name ++ acalls) ++ [Call.createDomain data] := by rw [he]
      have hr2 : applyCalls r (ensure p r).2 = applyCall r (Call.createDomain data) := by
        rw [hcalls, applyCalls_append, applyCalls_readonly r _ hro]
        rfl
      have hasm2 : assemble p (applyCalls r (ensure p r).2) = (Except.ok data, acalls) := by
        rw [hr2, assemble_applyCall, hasm]
      have hfetch2 : fetch_domain (applyCalls r (ensure p r).2) p.name =
          some (create_result r data) := by
        rw [hr2]
        exact fetch_after_create r hwf data p.name hname hsd
      have habs2 : ¬(p.state = "absent") := by rw [hp]; decide
      have he2 := ensure_noop_equal p (applyCalls r (ensure p r).2) data acalls
        (create_result r data) hasm2 hfetch2 habs2 (domains_equal_create r data)
      rw [he2]
      exact ⟨⟨some (create_result r data), rfl⟩,
        filter_mut_nil _ (base_calls_readonly p _ data acalls hasm2)⟩
    · have he := ensure_noop_absent p r data acalls hasm hfetch hp
      have hcalls : (ensure p r).2 = fetch_calls r p.name ++ acalls := by rw [he]
      have hr2 : applyCalls r (ensure p r).2 = r := by
        rw [hcalls]
        exact applyCalls_readonly r _ hro
      rw [hr2, he]
      exact ⟨⟨none, rfl⟩, filter_mut_nil _ hro⟩
  | some d =>
    have hfetch : fetch_domain r p.name = some d := by
      rw [fetch_eq_search r hwf p.name, hsd]
    by_cases habs : p.state = "absent"
    · have he := ensure_delete p r data acalls d hasm hfetch habs
      have hcalls : (ensure p r).2 =
          (fetch_calls r p.name ++ acalls) ++ [Call.deleteDomain d.id] := by rw [he]
      have hr2 : applyCalls r (ensure p r).2 = applyCall r (Call.deleteDomain d.id) := by
        rw [hcalls, applyCalls_append, applyCalls_readonly r _ hro]
        rfl
      have hasm2 : assemble p (applyCalls r (ensure p r).2) = (Except.ok data, acalls) := by
        rw [hr2, assemble_applyCall, hasm]
      have hfetch2 : fetch_domain (applyCalls r (ensure p r).2) p.name = none := by
        rw [hr2]
        exact fetch_after_delete r hwf d p.name hsd
      have hp2 : ¬(p.state = "present") := by rw [habs]; decide
      have he2 := ensure_noop_absent p (applyCalls r (ensure p r).2) data acalls hasm2
        hfetch2 hp2
      rw [he2]
      exact ⟨⟨none, rfl⟩, filter_mut_nil _ (base_calls_readonly p _ data acalls hasm2)⟩
    · by_cases heq : domains_equal data d comparable_keys = true
      · have he := ensure_noop_equal p r data acalls d hasm hfetch habs heq
        have hcalls : (ensure p r).2 = fetch_calls r p.name ++ acalls := by rw [he]
        have hr2 : applyCalls r (ensure p r).2 = r := by
          rw [hcalls]
          exact applyCalls_readonly r _ hro
        rw [hr2, he]
        exact ⟨⟨some d, rfl⟩, filter_mut_nil _ hro⟩
      · have heqf : domains_equal data d comparable_keys = false := by simpa using heq
        have he := ensure_update p r data acalls d hasm hfetch habs heqf
        have hcalls : (ensure p r).2 =
            (fetch_calls r p.name ++ acalls) ++ [Call.updateDomain d.id data] := by rw [he]
        have hr2 : applyCalls r (ensure p r).2 =
            applyCall r (Call.updateDomain d.id data) := by
          rw [hcalls, applyCalls_append, applyCalls_readonly r _ hro]
          rfl
        have hasm2 : assemble p (applyCalls r (ensure p r).2) = (Except.ok data, acalls) := by
          rw [hr2, assemble_applyCall, hasm]
        have hfetch2 : fetch_domain (applyCalls r (ensure p r).2) p.name =
            some (update_apply d data) := by
          rw [hr2]
          exact fetch_after_update r hwf d data p.name hsd hname
        have he2 := ensure_noop_equal p (applyCalls r (ensure p r).2) data acalls
          (update_apply d data) hasm2 hfetch2 habs (domains_equal_update d data)
        rw [he2]
        exact ⟨⟨some (update_apply d data), rfl⟩,
          filter_mut_nil _ (base_calls_readonly p _ data acalls hasm2)⟩

/-- C2 witness: a create on an empty well-formed remote followed by a second run
of the same desired state, which reports no change. -/
theorem c2_witness :
    ∃ dom2, (ensure ⟨"w2", some "f", none, "present", none, none⟩
      (applyCalls ⟨[], [], [], [], 0⟩
        (ensure ⟨"w2", some "f", none, "present", none, none⟩ ⟨[], [], [], [], 0⟩).2)).1 =
      Except.ok (false, dom2) :=
  (c2_second_run_no_change ⟨"w2", some "f", none, "present", none, none⟩
    ⟨[], [], [], [], 0⟩ ⟨"w2", some "f", none, none, none⟩ []
    ⟨List.Pairwise.nil, fun d hd => absurd hd (List.not_mem_nil d)⟩ rfl).1

end ForemanDomain
